import Mathlib

/-!
# Verification development for the blood-donation EDA pipeline

Shallow embedding of `eda_darah_insight.py`: the record normalizer
(sentinel filter, date coercion, `fillna`), the daily/monthly/yearly
aggregators, the facility-vs-state reconciliation, the hospital
`group_sum`, and the correlation matrix.  Machine floats carrying NaN
are modelled with `Option`; pandas' element-wise comparison semantics
(`NaN == x` is false, hence `NaN != 0` is true) are made explicit at
each use site.
-/

namespace Darah

/-- A calendar date, the result of a successful `pd.to_datetime` parse. -/
@[ext]
structure Date where
  y : Nat
  m : Nat
  d : Nat
deriving DecidableEq, Repr

/-- A calendar month, the key produced by `date.dt.to_period('M')`. -/
@[ext]
structure Month where
  y : Nat
  m : Nat
deriving DecidableEq, Repr

/-- The month a date falls in (`dt.to_period('M')`). -/
def monthOf (d : Date) : Month := ⟨d.y, d.m⟩

/-- The year a date falls in (`dt.year`). -/
def yearOf (d : Date) : Nat := d.y

/-- The year a month falls in; `yearOf` factors through `monthOf`. -/
def monthYear (m : Month) : Nat := m.y

/-- One raw CSV row, before cleaning: the entity column (`hospital` in
the facility file, `state` in the state file; `none` models a NaN cell),
the raw `date` string, and the `daily` donation count. -/
structure RawRow where
  entity : Option String
  dateStr : String
  daily : Int
deriving DecidableEq, Repr

/-- One normalized row: entity with NaN filled by `'Unknown'`, date
coerced (`none` is the NaT marker for an unparsable date), `daily`
untouched. -/
structure Row where
  entity : String
  date : Option Date
  daily : Int
deriving DecidableEq, Repr

/-- `str.lower()` on one cell: lowercase each character. -/
def lowered (s : String) : List Char :=
  s.data.map Char.toLower

/-- Line 34's mask `state_df['state'].str.lower().eq('malaysia')`:
in pandas, `.str.lower()` of NaN is NaN and `NaN.eq('malaysia')` is
`False`, so a missing entity never matches the sentinel. -/
def isNationwide : Option String → Bool
  | some s => lowered s == "malaysia".data
  | none => false

/-- Cleaning applied to one surviving row: `pd.to_datetime(·, errors='coerce')`
(an arbitrary parser `P` returning `none` on an unparsable string) and
`fillna('Unknown')` on the entity column.  `daily` passes through. -/
def normRow (P : String → Option Date) (r : RawRow) : Row :=
  ⟨r.entity.getD "Unknown", P r.dateStr, r.daily⟩

/-- Normalization of the facility dataset (lines 47 and 55): no row is
ever filtered out. -/
def normalizeFacility (P : String → Option Date) (rows : List RawRow) : List Row :=
  rows.map (normRow P)

/-- Normalization of the state dataset (lines 34, 48 and 57): drop the
case-insensitive nationwide sentinel rows, then clean each survivor. -/
def normalizeState (P : String → Option Date) (rows : List RawRow) : List Row :=
  (rows.filter (fun r => !(isNationwide r.entity))).map (normRow P)

/-- `groupby(key)['daily'].sum()` evaluated at one group key: rows whose
key is missing (NaT date) carry `key r = none` and belong to no group,
exactly as pandas' default `dropna=True` grouping discards NaN keys. -/
def groupTotal {κ : Type} [DecidableEq κ] (key : Row → Option κ) (recs : List Row)
    (k : κ) : Int :=
  ((recs.filter (fun r => key r = some k)).map (fun r => r.daily)).sum

/-- Per-date total, `df.groupby('date')['daily'].sum()` at one date. -/
def dailyTotal (recs : List Row) (d : Date) : Int :=
  groupTotal (fun r => r.date) recs d

/-- Per-month total, `df.groupby(df['date'].dt.to_period('M'))['daily'].sum()`
at one month (line 235). -/
def monthlyTotal (recs : List Row) (m : Month) : Int :=
  groupTotal (fun r => r.date.map monthOf) recs m

/-- Per-year total, `df.groupby(df['date'].dt.year)['daily'].sum()` at
one year (line 137). -/
def yearlyTotal (recs : List Row) (y : Nat) : Int :=
  groupTotal (fun r => r.date.map yearOf) recs y

/-- Per-hospital total, `df.groupby('hospital')['daily'].sum()` at one
hospital (line 127); the entity key is never missing after `fillna`. -/
def entityTotal (recs : List Row) (h : String) : Int :=
  groupTotal (fun r => some r.entity) recs h

/-- Chronological order on dates, the order of a pandas DatetimeIndex. -/
def dateLE (a b : Date) : Prop :=
  a.y < b.y ∨ (a.y = b.y ∧ (a.m < b.m ∨ (a.m = b.m ∧ a.d ≤ b.d)))

instance : DecidableRel dateLE := fun a b => by
  unfold dateLE; infer_instance

instance : IsTotal Date dateLE :=
  ⟨fun a b => by unfold dateLE; omega⟩

instance : IsTrans Date dateLE :=
  ⟨fun a b c => by unfold dateLE; omega⟩

instance : IsAntisymm Date dateLE :=
  ⟨fun a b h1 h2 => by
    have : a.y = b.y ∧ a.m = b.m ∧ a.d = b.d := by
      revert h1 h2; unfold dateLE; omega
    ext <;> omega⟩

/-- A day-granularity aggregate: a pandas Series indexed by date, as an
association list of (date, total) pairs.  `lookupA` is `.loc[d]` during
index alignment: `none` is the NaN a date absent from the index gets. -/
def lookupA (d : Date) : List (Date × Int) → Option Int
  | [] => none
  | (d', v) :: t => if d' = d then some v else lookupA d t

/-- The index of `pd.DataFrame({'facility_total': f, 'state_total': g})`:
the union of the two series' indices, deduplicated and in chronological
order. -/
def unionDates (f g : List (Date × Int)) : List Date :=
  List.insertionSort dateLE ((f.map Prod.fst ++ g.map Prod.fst).dedup)

/-- Float subtraction under alignment: `x - NaN`, `NaN - y` and
`NaN - NaN` are all NaN (line 79 subtracts the aligned columns). -/
def subOpt : Option Int → Option Int → Option Int
  | some x, some y => some (x - y)
  | _, _ => none

/-- One row of `verification_df` (lines 75-79): the two aligned totals
(`none` is the NaN an absent side gets — the code never fills it with 0)
and their difference. -/
structure ReconRow where
  date : Date
  facility_total : Option Int
  state_total : Option Int
  difference : Option Int
deriving DecidableEq, Repr

/-- `verification_df` with its `difference` column: one row per date of
the union index, each column `none` where the date is absent from that
side's series. -/
def reconcile (f g : List (Date × Int)) : List ReconRow :=
  (unionDates f g).map (fun d =>
    ⟨d, lookupA d f, lookupA d g, subOpt (lookupA d f) (lookupA d g)⟩)

/-- Pandas' element-wise `difference != 0` (line 87): NaN compared with
a scalar is unequal, so a NaN difference passes the mismatch filter. -/
def mismatchTest (r : ReconRow) : Bool :=
  !(r.difference == some 0)

/-- `mismatches = verification_df[verification_df['difference'] != 0]`. -/
def mismatchRows (f g : List (Date × Int)) : List ReconRow :=
  (reconcile f g).filter mismatchTest

/-- `len(mismatches)` (line 88). -/
def mismatchCount (f g : List (Date × Int)) : Nat :=
  (mismatchRows f g).length

/-- `mismatches.head(10)` (line 91). -/
def mismatchPreview (f g : List (Date × Int)) : List ReconRow :=
  (mismatchRows f g).take 10

/-! ### Descriptive statistics (`DataFrame.describe`, line 84)

`describe` reports count, mean, std, min, 25%, 50%, 75% and max of each
column, computed over the non-NaN entries.  We model the std by the
sample variance `stdSq` it is the square root of (ddof = 1; the root is
irrational in general, and the variance determines it), and the empty /
degenerate cases by `none`, pandas' NaN. -/

/-- Linear-interpolation quantile of an ascending-sorted list, numpy's
default `interpolation='linear'`: position `q * (n - 1)`, interpolating
between the two neighbouring order statistics. -/
def quantileSorted (s : List ℚ) (q : ℚ) : Option ℚ :=
  match s with
  | [] => none
  | _ :: _ =>
    let p : ℚ := q * ((s.length : ℚ) - 1)
    let i : Nat := p.floor.toNat
    match s.get? i, s.get? (i + 1) with
    | some a, some b => some (a + (p - (i : ℚ)) * (b - a))
    | some a, none => some a
    | none, _ => none

/-- The statistics `describe` prints for one column. -/
structure Describe where
  count : Nat
  mean : Option ℚ
  stdSq : Option ℚ
  min : Option ℚ
  q25 : Option ℚ
  q50 : Option ℚ
  q75 : Option ℚ
  max : Option ℚ
deriving DecidableEq, Repr

/-- `describe` of one column, given the list of its non-NaN entries. -/
def describeStats (xs : List ℚ) : Describe :=
  let n := xs.length
  let mean : ℚ := xs.sum / n
  let s := List.insertionSort (fun a b : ℚ => a ≤ b) xs
  { count := n
    mean := if n = 0 then none else some mean
    stdSq := if n ≤ 1 then none
      else some ((xs.map (fun x => (x - mean) * (x - mean))).sum / ((n : ℚ) - 1))
    min := s.head?
    q25 := quantileSorted s (1/4)
    q50 := quantileSorted s (1/2)
    q75 := quantileSorted s (3/4)
    max := s.getLast? }

/-- The non-NaN entries of the `difference` column, in index order. -/
def diffSeries (f g : List (Date × Int)) : List ℚ :=
  ((reconcile f g).filterMap (fun r => r.difference)).map (fun z => (z : ℚ))

/-- `verification_df.describe()` restricted to the `difference` column
(line 84). -/
def diffDescribe (f g : List (Date × Int)) : Describe :=
  describeStats (diffSeries f g)

/-! ### Dimensional aggregation by hospital (line 127) -/

/-- Lexicographic comparison of character lists, the order pandas uses
on string group keys. -/
def charListLe : List Char → List Char → Bool
  | [], _ => true
  | _ :: _, [] => false
  | a :: as, b :: bs => if a < b then true else if b < a then false else charListLe as bs

/-- Lexicographic order on strings. -/
def strLE (a b : String) : Prop := charListLe a.data b.data = true

instance : DecidableRel strLE := fun a b => by
  unfold strLE; infer_instance

/-- The group keys of `groupby('hospital')`: distinct hospital names in
ascending order (pandas sorts group keys by default). -/
def hospitalKeys (recs : List Row) : List String :=
  List.insertionSort strLE ((recs.map (fun r => r.entity)).dedup)

/-- `facility_df.groupby('hospital')['daily'].sum()`: one (hospital,
summed total) pair per distinct hospital. -/
def hospitalSums (recs : List Row) : List (String × Int) :=
  (hospitalKeys recs).map (fun h => (h, entityTotal recs h))

/-- Descending order on summed totals, `sort_values(ascending=False)`;
pandas' quicksort leaves the order within a tie unspecified. -/
def valueDescLE (p q : String × Int) : Prop := q.2 ≤ p.2

instance : DecidableRel valueDescLE := fun p q => by
  unfold valueDescLE; infer_instance

instance : IsTotal (String × Int) valueDescLE :=
  ⟨fun p q => le_total q.2 p.2⟩

instance : IsTrans (String × Int) valueDescLE :=
  ⟨fun _ _ _ h1 h2 => le_trans h2 h1⟩

/-- `groupby('hospital')['daily'].sum().sort_values(ascending=False)`
(line 127). -/
def facilityTotalsRanked (recs : List Row) : List (String × Int) :=
  List.insertionSort valueDescLE (hospitalSums recs)

/-! ### Correlation matrix (`df.corr(numeric_only=True)`, line 223)

Pearson's r is `cov(x,y) / (std x * std y)`; the normalising factors
(1/(n-1)) cancel, leaving `S_xy / sqrt(S_xx * S_yy)` over the sums of
products of deviations from the mean.  The square root is irrational,
so an entry is carried exactly as the pair (numerator, squared
denominator); a zero-variance column makes the quotient 0/0, pandas'
NaN. -/

/-- Column mean over `Fin n` (the mean of an empty column divides by
zero; it only ever feeds a zero-variance, hence NaN, entry). -/
def colMean (n : Nat) (f : Fin n → ℚ) : ℚ :=
  (∑ i, f i) / n

/-- Sum of products of deviations, `S_xy = Σ (x_i - x̄)(y_i - ȳ)`. -/
def devSum (n : Nat) (f g : Fin n → ℚ) : ℚ :=
  ∑ i, (f i - colMean n f) * (g i - colMean n g)

/-- A float correlation entry: NaN, or the exact value
`num / sqrt den2` with `den2 > 0`. -/
inductive CorrVal where
  | nan : CorrVal
  | ratio (num den2 : ℚ) : CorrVal
deriving DecidableEq, Repr

/-- The entry `num / sqrt den2` equals the float 1.0 exactly when the
numerator is nonnegative and its square is the squared denominator. -/
def CorrVal.isOne : CorrVal → Prop
  | .nan => False
  | .ratio num den2 => 0 ≤ num ∧ num * num = den2

/-- One Pearson entry: `S_xy / sqrt(S_xx * S_yy)`, NaN when either
column has zero variance (0/0 in floats). -/
def corrEntry (n : Nat) (f g : Fin n → ℚ) : CorrVal :=
  if devSum n f f = 0 ∨ devSum n g g = 0 then .nan
  else .ratio (devSum n f g) (devSum n f f * devSum n g g)

/-- `df.corr(numeric_only=True)`: the matrix of pairwise Pearson
entries over the numeric columns `cols`. -/
def corrMatrix {ι : Type} (n : Nat) (cols : ι → Fin n → ℚ) (i j : ι) : CorrVal :=
  corrEntry n (cols i) (cols j)

/-! ### Helper lemmas -/

lemma lookupA_mem_keys {d : Date} : ∀ {l : List (Date × Int)} {v : Int},
    lookupA d l = some v → d ∈ l.map Prod.fst := by
  intro l
  induction l with
  | nil => intro v h; simp [lookupA] at h
  | cons p t ih =>
    intro v h
    by_cases hd : p.1 = d
    · simp [hd]
    · rw [show lookupA d (p :: t) = lookupA d t by
        cases p with | mk a b => simp [lookupA, hd]] at h
      exact List.mem_cons_of_mem _ (ih h)

lemma lookupA_isSome_of_mem {d : Date} : ∀ {l : List (Date × Int)},
    d ∈ l.map Prod.fst → ∃ v, lookupA d l = some v := by
  intro l
  induction l with
  | nil => simp
  | cons p t ih =>
    intro h
    cases p with
    | mk a b =>
      by_cases hd : a = d
      · exact ⟨b, by simp [lookupA, hd]⟩
      · have : d ∈ t.map Prod.fst := by
          rcases List.mem_map.1 h with ⟨q, hq, hq1⟩
          rcases List.mem_cons.1 hq with rfl | hq'
          · exact absurd hq1 hd
          · exact List.mem_map.2 ⟨q, hq', hq1⟩
        rcases ih this with ⟨v, hv⟩
        exact ⟨v, by simp [lookupA, hd, hv]⟩

lemma mem_unionDates {d : Date} {f g : List (Date × Int)} :
    d ∈ unionDates f g ↔ d ∈ f.map Prod.fst ∨ d ∈ g.map Prod.fst := by
  unfold unionDates
  rw [List.mem_insertionSort, List.mem_dedup, List.mem_append]

lemma unionDates_comm (f g : List (Date × Int)) :
    unionDates f g = unionDates g f := by
  have h1 : (unionDates f g).Perm ((f.map Prod.fst ++ g.map Prod.fst).dedup) :=
    List.perm_insertionSort _ _
  have h2 : ((f.map Prod.fst ++ g.map Prod.fst).dedup).Perm
      ((g.map Prod.fst ++ f.map Prod.fst).dedup) := by
    rw [List.perm_ext_iff_of_nodup (List.nodup_dedup _) (List.nodup_dedup _)]
    intro a
    simp only [List.mem_dedup, List.mem_append]
    exact or_comm
  have h3 : ((g.map Prod.fst ++ f.map Prod.fst).dedup).Perm (unionDates g f) :=
    (List.perm_insertionSort _ _).symm
  exact List.eq_of_perm_of_sorted ((h1.trans h2).trans h3)
    (List.sorted_insertionSort _ _) (List.sorted_insertionSort _ _)

lemma groupTotal_cons {κ : Type} [DecidableEq κ] (key : Row → Option κ)
    (r : Row) (t : List Row) (k : κ) :
    groupTotal key (r :: t) k
      = (if key r = some k then r.daily else 0) + groupTotal key t k := by
  by_cases h : key r = some k <;> simp [groupTotal, List.filter_cons, h]

lemma groupTotal_filter {κ : Type} [DecidableEq κ] (key : Row → Option κ)
    (p : Row → Bool) (k : κ) (hp : ∀ r, key r = some k → p r = true)
    (recs : List Row) :
    groupTotal key (recs.filter p) k = groupTotal key recs k := by
  induction recs with
  | nil => rfl
  | cons r t ih =>
    rw [List.filter_cons]
    by_cases hpr : p r = true
    · rw [if_pos hpr, groupTotal_cons, groupTotal_cons, ih]
    · rw [if_neg hpr, groupTotal_cons, ih, if_neg, zero_add]
      intro hk
      exact hpr (hp r hk)

lemma groupTotal_map_fiber {κ κ' : Type} [DecidableEq κ] [DecidableEq κ']
    (F : κ → κ') (key : Row → Option κ) (k' : κ') (S : Finset κ)
    (recs : List Row)
    (hS : ∀ r ∈ recs, ∀ k, key r = some k → F k = k' → k ∈ S) :
    groupTotal (fun r => (key r).map F) recs k'
      = ∑ k ∈ S.filter (fun k => F k = k'), groupTotal key recs k := by
  induction recs with
  | nil => simp [groupTotal]
  | cons r t ih =>
    have hS' : ∀ r' ∈ t, ∀ k, key r' = some k → F k = k' → k ∈ S :=
      fun r' hr' => hS r' (List.mem_cons_of_mem _ hr')
    rw [groupTotal_cons]
    calc (if (key r).map F = some k' then r.daily else 0)
          + groupTotal (fun r => (key r).map F) t k'
        = (if (key r).map F = some k' then r.daily else 0)
          + ∑ k ∈ S.filter (fun k => F k = k'), groupTotal key t k := by rw [ih hS']
      _ = ∑ k ∈ S.filter (fun k => F k = k'),
            ((if key r = some k then r.daily else 0) + groupTotal key t k) := by
          rw [Finset.sum_add_distrib]
          congr 1
          cases hkr : key r with
          | none => simp
          | some k0 =>
            simp only [Option.map_some', Option.some.injEq]
            rw [Finset.sum_ite_eq]
            by_cases hF : F k0 = k'
            · rw [if_pos hF]
              exact (if_pos (Finset.mem_filter.2
                ⟨hS r (List.mem_cons_self r t) k0 hkr hF, hF⟩)).symm
            · rw [if_neg hF]
              exact (if_neg (c := k0 ∈ Finset.filter (fun k => F k = k') S)
                (fun hmem => hF (Finset.mem_filter.1 hmem).2)).symm
      _ = ∑ k ∈ S.filter (fun k => F k = k'), groupTotal key (r :: t) k := by
          exact Finset.sum_congr rfl (fun k _ => (groupTotal_cons key r t k).symm)

/-! ### Claim theorems -/

/-- C5: Normalizing the state dataset drops exactly the rows whose entity
case-insensitively equals the nationwide sentinel "Malaysia" and no other
rows; every surviving row — including one with a zero or negative total —
passes through with its total unchanged, and the facility dataset is never
subject to this filter. -/
theorem state_filter_sentinel_only (P : String → Option Date) (rows : List RawRow) :
    (∀ s : String, isNationwide (some s) = true ↔ lowered s = lowered "Malaysia")
    ∧ (normalizeState P rows).length = rows.countP (fun r => !(isNationwide r.entity))
    ∧ (∀ r ∈ rows, isNationwide r.entity = false →
        normRow P r ∈ normalizeState P rows ∧ (normRow P r).daily = r.daily)
    ∧ normalizeFacility P rows = rows.map (normRow P)
    ∧ (normalizeFacility P rows).length = rows.length := by
  refine ⟨?_, ?_, ?_, rfl, by simp [normalizeFacility]⟩
  · intro s
    have hm : lowered "Malaysia" = "malaysia".data := by decide
    rw [hm]
    simp [isNationwide]
  · simp [normalizeState, List.countP_eq_length_filter]
  · intro r hr hn
    exact ⟨List.mem_map.2 ⟨r, List.mem_filter.2 ⟨hr, by rw [hn]; rfl⟩, rfl⟩, rfl⟩

theorem state_filter_sentinel_only_witness :
    normRow (fun _ => none) ⟨some "Selangor", "x", -3⟩
        ∈ normalizeState (fun _ => none)
          [⟨some "MALAYSIA", "d", 5⟩, ⟨some "Selangor", "x", -3⟩, ⟨none, "y", 0⟩]
      ∧ (normRow (fun _ => none) ⟨some "Selangor", "x", -3⟩).daily = -3 :=
  (state_filter_sentinel_only (fun _ => none)
      [⟨some "MALAYSIA", "d", 5⟩, ⟨some "Selangor", "x", -3⟩, ⟨none, "y", 0⟩]).2.2.1
    ⟨some "Selangor", "x", -3⟩ (by decide) (by decide)

/-- C10: A state row whose entity is missing is never removed by the
nationwide-sentinel filter (the filter precedes `fillna`, and a missing
value does not case-insensitively equal the sentinel); it survives
normalization with entity "Unknown" and contributes to grouping under
that key like any other value. -/
theorem missing_entity_survives_filter (P : String → Option Date)
    (rows : List RawRow) (r : RawRow) (hr : r ∈ rows) (he : r.entity = none) :
    isNationwide r.entity = false
    ∧ normRow P r ∈ normalizeState P rows
    ∧ (normRow P r).entity = "Unknown"
    ∧ ∀ recs : List Row, entityTotal (normRow P r :: recs) "Unknown"
        = r.daily + entityTotal recs "Unknown" := by
  have hn : isNationwide r.entity = false := by rw [he]; rfl
  refine ⟨hn, ?_, ?_, ?_⟩
  · exact List.mem_map.2 ⟨r, List.mem_filter.2 ⟨hr, by rw [hn]; rfl⟩, rfl⟩
  · rw [normRow, he]; rfl
  · intro recs
    rw [entityTotal, groupTotal_cons]
    rw [if_pos (by rw [normRow, he]; rfl)]
    rfl

theorem missing_entity_survives_filter_witness :
    isNationwide (RawRow.entity ⟨none, "zz", 7⟩) = false
    ∧ normRow (fun _ => none) ⟨none, "zz", 7⟩
        ∈ normalizeState (fun _ => none) [⟨none, "zz", 7⟩]
    ∧ (normRow (fun _ => none) ⟨none, "zz", 7⟩).entity = "Unknown"
    ∧ ∀ recs : List Row, entityTotal (normRow (fun _ => none) ⟨none, "zz", 7⟩ :: recs)
        "Unknown" = 7 + entityTotal recs "Unknown" :=
  missing_entity_survives_filter (fun _ => none) [⟨none, "zz", 7⟩]
    ⟨none, "zz", 7⟩ (by decide) rfl

/-- C6: `pd.to_datetime(·, errors='coerce')` sends each unparsable date to
the NaT marker without raising (the parser is a total function into
`Option Date`), the row is kept in the normalized output, and the daily,
monthly and yearly date-keyed groupings ignore rows carrying the marker. -/
theorem coerced_dates_kept_but_ungrouped (P : String → Option Date)
    (rows : List RawRow) :
    ((normalizeFacility P rows).map (fun n => n.date) = rows.map (fun r => P r.dateStr))
    ∧ (∀ r ∈ rows, isNationwide r.entity = false → normRow P r ∈ normalizeState P rows)
    ∧ (∀ (recs : List Row) (d : Date),
        dailyTotal recs d = dailyTotal (recs.filter (fun r => r.date.isSome)) d)
    ∧ (∀ (recs : List Row) (m : Month),
        monthlyTotal recs m = monthlyTotal (recs.filter (fun r => r.date.isSome)) m)
    ∧ (∀ (recs : List Row) (y : Nat),
        yearlyTotal recs y = yearlyTotal (recs.filter (fun r => r.date.isSome)) y) := by
  refine ⟨?_, ?_, ?_, ?_, ?_⟩
  · simp [normalizeFacility, List.map_map]
    exact fun a _ => rfl
  · intro r hr hn
    exact List.mem_map.2 ⟨r, List.mem_filter.2 ⟨hr, by rw [hn]; rfl⟩, rfl⟩
  · intro recs d
    exact (groupTotal_filter _ _ d (fun r h => by rw [h]; rfl) recs).symm
  · intro recs m
    refine (groupTotal_filter _ _ m (fun r h => ?_) recs).symm
    cases hd : r.date with
    | none => rw [hd] at h; simp at h
    | some d' => rfl
  · intro recs y
    refine (groupTotal_filter _ _ y (fun r h => ?_) recs).symm
    cases hd : r.date with
    | none => rw [hd] at h; simp at h
    | some d' => rfl

theorem coerced_dates_kept_but_ungrouped_witness :
    normRow (fun _ => none) ⟨some "H", "garbage", 4⟩
      ∈ normalizeState (fun _ => none) [⟨some "H", "garbage", 4⟩] :=
  (coerced_dates_kept_but_ungrouped (fun _ => none) [⟨some "H", "garbage", 4⟩]).2.1
    ⟨some "H", "garbage", 4⟩ (by decide) (by decide)

/-- C1 (counterexample): a date present only in the facility aggregate with
total 50 does NOT get `state_total = 0` and `difference = 50`; the
DataFrame constructor aligns with NaN on the absent side and `50 - NaN`
is NaN, and the code never fills the gap with 0. -/
theorem absent_side_counterexample :
    reconcile [(⟨2023, 1, 1⟩, 50)] [] =
        [⟨⟨2023, 1, 1⟩, some 50, none, none⟩]
      ∧ reconcile [(⟨2023, 1, 1⟩, 50)] [] ≠
        [⟨⟨2023, 1, 1⟩, some 50, some 0, some 50⟩] := by decide

/-- C1 (amended): for a date present in only one of the two aggregates,
the absent side's total is missing (NaN) rather than 0, the difference is
likewise missing, and the date is nevertheless classified as mismatched,
since NaN fails the `== 0` test. -/
theorem absent_side_amended (f g : List (Date × Int)) (d : Date) (v : Int)
    (hf : lookupA d f = some v) (hg : lookupA d g = none) :
    (⟨d, some v, none, none⟩ : ReconRow) ∈ reconcile f g
    ∧ (⟨d, some v, none, none⟩ : ReconRow) ∈ mismatchRows f g := by
  have hd : d ∈ unionDates f g := mem_unionDates.2 (Or.inl (lookupA_mem_keys hf))
  have hrow : (⟨d, some v, none, none⟩ : ReconRow) ∈ reconcile f g := by
    unfold reconcile
    refine List.mem_map.2 ⟨d, hd, ?_⟩
    rw [hf, hg]
    rfl
  exact ⟨hrow, List.mem_filter.2 ⟨hrow, rfl⟩⟩

theorem absent_side_amended_witness :
    (⟨⟨2023, 1, 1⟩, some 50, none, none⟩ : ReconRow)
        ∈ reconcile [(⟨2023, 1, 1⟩, 50)] []
    ∧ (⟨⟨2023, 1, 1⟩, some 50, none, none⟩ : ReconRow)
        ∈ mismatchRows [(⟨2023, 1, 1⟩, 50)] [] :=
  absent_side_amended [(⟨2023, 1, 1⟩, 50)] [] ⟨2023, 1, 1⟩ 50 (by decide) rfl

/-- C3: reconciling a day-granularity aggregate with itself yields
difference `0` on every date and a mismatch count of `0`. -/
theorem reconcile_self_zero (X : List (Date × Int)) :
    (∀ r ∈ reconcile X X, r.difference = some 0)
    ∧ mismatchCount X X = 0 := by
  have hall : ∀ r ∈ reconcile X X, r.difference = some 0 := by
    intro r hr
    rcases List.mem_map.1 hr with ⟨d, hd, rfl⟩
    have hdX : d ∈ X.map Prod.fst := (mem_unionDates.1 hd).elim id id
    rcases lookupA_isSome_of_mem hdX with ⟨v, hv⟩
    simp [hv, subOpt]
  refine ⟨hall, ?_⟩
  rw [mismatchCount, mismatchRows, List.length_eq_zero, List.filter_eq_nil_iff]
  intro r hr
  rw [mismatchTest, hall r hr]
  simp

theorem reconcile_self_zero_witness :
    ReconRow.difference ⟨⟨2023, 1, 1⟩, some 5, some 5, some 0⟩ = some 0
    ∧ mismatchCount [(⟨2023, 1, 1⟩, 5)] [(⟨2023, 1, 1⟩, 5)] = 0 :=
  ⟨(reconcile_self_zero [(⟨2023, 1, 1⟩, 5)]).1 _ (by decide),
    (reconcile_self_zero [(⟨2023, 1, 1⟩, 5)]).2⟩

/-- C4: reconciliation is antisymmetric — swapping the facility and state
inputs negates the difference on every date of the (identical) union
index and leaves every date's mismatch classification unchanged. -/
theorem reconcile_antisymm (f g : List (Date × Int)) :
    (reconcile g f).map (fun r => (r.date, r.difference))
      = (reconcile f g).map (fun r => (r.date, r.difference.map (fun z => -z)))
    ∧ (reconcile g f).map (fun r => (r.date, mismatchTest r))
      = (reconcile f g).map (fun r => (r.date, mismatchTest r)) := by
  constructor
  · rw [reconcile, reconcile, unionDates_comm g f, List.map_map, List.map_map]
    congr 1
    funext d
    cases hf : lookupA d f <;> cases hg : lookupA d g <;>
      simp [subOpt, Function.comp, hf, hg]
  · rw [reconcile, reconcile, unionDates_comm g f, List.map_map, List.map_map]
    congr 1
    funext d
    cases hf : lookupA d f <;> cases hg : lookupA d g <;>
      simp [mismatchTest, subOpt, Function.comp, hf, hg]
    omega

/-- The valid dates occurring in a dataset. -/
def datesOf (recs : List Row) : Finset Date :=
  (recs.filterMap (fun r => r.date)).toFinset

/-- The months occurring in a dataset (`dt.to_period('M')` of the valid
dates). -/
def monthsOf (recs : List Row) : Finset Month :=
  (recs.filterMap (fun r => r.date.map monthOf)).toFinset

/-- C7: period aggregation is hierarchically consistent — each monthly
total is the sum of the daily totals over that month's days, and each
yearly total is the sum of the monthly totals over that year's months. -/
theorem period_totals_consistent (recs : List Row) (m : Month) (y : Nat) :
    monthlyTotal recs m
      = ∑ d ∈ (datesOf recs).filter (fun d => monthOf d = m), dailyTotal recs d
    ∧ yearlyTotal recs y
      = ∑ mo ∈ (monthsOf recs).filter (fun mo => monthYear mo = y),
          monthlyTotal recs mo := by
  constructor
  · exact groupTotal_map_fiber monthOf (fun r => r.date) m (datesOf recs) recs
      (fun r hr k hk _ => List.mem_toFinset.2 (List.mem_filterMap.2 ⟨r, hr, hk⟩))
  · have hfun : (fun r : Row => (r.date.map monthOf).map monthYear)
        = (fun r : Row => r.date.map yearOf) := by
      funext r
      cases r.date <;> rfl
    rw [yearlyTotal, ← hfun]
    exact groupTotal_map_fiber monthYear (fun r => r.date.map monthOf) y
      (monthsOf recs) recs
      (fun r hr k hk _ => List.mem_toFinset.2 (List.mem_filterMap.2 ⟨r, hr, hk⟩))

/-- C8: the correlation matrix is symmetric, its diagonal entry is
exactly 1.0 at every attribute of nonzero variance, and every pair
involving a zero-variance attribute is the NaN entry — present in the
matrix, not an error. -/
theorem corr_matrix_properties {ι : Type} (n : Nat) (cols : ι → Fin n → ℚ)
    (i j : ι) :
    corrMatrix n cols i j = corrMatrix n cols j i
    ∧ (devSum n (cols i) (cols i) ≠ 0 → (corrMatrix n cols i i).isOne)
    ∧ (devSum n (cols i) (cols i) = 0 ∨ devSum n (cols j) (cols j) = 0 →
        corrMatrix n cols i j = CorrVal.nan) := by
  have covsym : ∀ f g : Fin n → ℚ, devSum n f g = devSum n g f := by
    intro f g
    unfold devSum
    exact Finset.sum_congr rfl (fun k _ => mul_comm _ _)
  refine ⟨?_, ?_, ?_⟩
  · unfold corrMatrix corrEntry
    by_cases h : devSum n (cols i) (cols i) = 0 ∨ devSum n (cols j) (cols j) = 0
    · rw [if_pos h, if_pos h.symm]
    · rw [if_neg h, if_neg (fun hc => h hc.symm)]
      rw [covsym (cols i) (cols j), mul_comm]
  · intro h
    unfold corrMatrix corrEntry
    rw [if_neg (fun hc => hc.elim h h)]
    refine ⟨?_, rfl⟩
    unfold devSum
    exact Finset.sum_nonneg (fun k _ => mul_self_nonneg _)
  · intro h
    unfold corrMatrix corrEntry
    rw [if_pos h]

theorem corr_matrix_properties_witness :
    devSum 2 (![![(1 : ℚ), 3], ![2, 2]] 0) (![![(1 : ℚ), 3], ![2, 2]] 0) ≠ 0
    ∧ (corrMatrix 2 ![![(1 : ℚ), 3], ![2, 2]] 0 0).isOne
    ∧ corrMatrix 2 ![![(1 : ℚ), 3], ![2, 2]] 0 1 = CorrVal.nan :=
  ⟨by norm_num [devSum, colMean, Fin.sum_univ_two],
    (corr_matrix_properties 2 ![![(1 : ℚ), 3], ![2, 2]] 0 0).2.1
      (by norm_num [devSum, colMean, Fin.sum_univ_two]),
    (corr_matrix_properties 2 ![![(1 : ℚ), 3], ![2, 2]] 0 1).2.2
      (Or.inr (by norm_num [devSum, colMean, Fin.sum_univ_two]))⟩

/-- C9: grouping by hospital sums the totals of all rows sharing an entity
value (duplicate rows are summed, never deduplicated) and the result is
sorted descending by summed total; `[(H1,10),(H1,20),(H2,5)]` yields
`[(H1,30),(H2,5)]`. -/
theorem group_sum_by_hospital (recs : List Row) :
    facilityTotalsRanked
        [⟨"H1", some ⟨2023, 1, 1⟩, 10⟩, ⟨"H1", some ⟨2023, 1, 1⟩, 20⟩,
          ⟨"H2", some ⟨2023, 1, 1⟩, 5⟩]
      = [("H1", 30), ("H2", 5)]
    ∧ List.Sorted valueDescLE (facilityTotalsRanked recs)
    ∧ (facilityTotalsRanked recs).Perm (hospitalSums recs)
    ∧ ∀ h ∈ recs.map (fun r => r.entity),
        (h, entityTotal recs h) ∈ facilityTotalsRanked recs := by
  refine ⟨by decide, List.sorted_insertionSort _ _, List.perm_insertionSort _ _, ?_⟩
  intro h hh
  rw [facilityTotalsRanked, List.mem_insertionSort]
  refine List.mem_map.2 ⟨h, ?_, rfl⟩
  rw [hospitalKeys, List.mem_insertionSort, List.mem_dedup]
  exact hh

lemma sorted_head_min (xs : List ℚ) (mn : ℚ)
    (h : (List.insertionSort (fun a b : ℚ => a ≤ b) xs).head? = some mn) :
    mn ∈ xs ∧ ∀ x ∈ xs, mn ≤ x := by
  have hsort := List.sorted_insertionSort (fun a b : ℚ => a ≤ b) xs
  have hperm := List.perm_insertionSort (fun a b : ℚ => a ≤ b) xs
  cases hs0 : List.insertionSort (fun a b : ℚ => a ≤ b) xs with
  | nil => rw [hs0] at h; simp at h
  | cons a t =>
    rw [hs0] at h hsort hperm
    simp only [List.head?_cons, Option.some.injEq] at h
    subst h
    constructor
    · exact hperm.subset (List.mem_cons_self _ _)
    · intro x hx
      rcases List.mem_cons.1 (hperm.symm.subset hx) with rfl | hx'
      · exact le_refl _
      · exact (List.sorted_cons.1 hsort).1 x hx'

lemma max_of_sorted : ∀ s : List ℚ, s.Sorted (fun a b : ℚ => a ≤ b) →
    ∀ mx, s.getLast? = some mx → mx ∈ s ∧ ∀ x ∈ s, x ≤ mx := by
  intro s
  induction s with
  | nil => intro _ mx h; simp at h
  | cons a t ih =>
    intro hs mx h
    cases t with
    | nil =>
      simp only [List.getLast?_singleton, Option.some.injEq] at h
      subst h
      refine ⟨List.mem_cons_self _ _, ?_⟩
      intro x hx
      rcases List.mem_cons.1 hx with rfl | h'
      · exact le_refl _
      · simp at h'
    | cons b t' =>
      rw [List.getLast?_cons_cons] at h
      obtain ⟨hm, hb⟩ := ih (List.sorted_cons.1 hs).2 mx h
      refine ⟨List.mem_cons_of_mem _ hm, ?_⟩
      intro x hx
      rcases List.mem_cons.1 hx with rfl | hx'
      · exact (List.sorted_cons.1 hs).1 mx hm
      · exact hb x hx'

lemma sorted_getLast_max (xs : List ℚ) (mx : ℚ)
    (h : (List.insertionSort (fun a b : ℚ => a ≤ b) xs).getLast? = some mx) :
    mx ∈ xs ∧ ∀ x ∈ xs, x ≤ mx := by
  have hsort := List.sorted_insertionSort (fun a b : ℚ => a ≤ b) xs
  have hperm := List.perm_insertionSort (fun a b : ℚ => a ≤ b) xs
  obtain ⟨hm, hb⟩ := max_of_sorted _ hsort mx h
  exact ⟨hperm.subset hm, fun x hx => hb x (hperm.symm.subset hx)⟩

/-- C2: a date of the union index is classified as mismatched exactly when
its difference is not zero (a NaN difference fails the `== 0` test and
counts as a mismatch; no tolerance of any kind exists), `mismatch_count`
is the number of such dates, the reported summary holds the descriptive
statistics (count, mean, std, min, quartiles, max) of the difference
series, and the preview is the first 10 mismatched rows at most. -/
theorem mismatch_classification (f g : List (Date × Int)) :
    (∀ r, r ∈ mismatchRows f g ↔ r ∈ reconcile f g ∧ r.difference ≠ some 0)
    ∧ ((reconcile f g).map (fun r => r.date) = unionDates f g
        ∧ ∀ d, d ∈ unionDates f g ↔ d ∈ f.map Prod.fst ∨ d ∈ g.map Prod.fst)
    ∧ mismatchCount f g
        = ((unionDates f g).filter
            (fun d => !(subOpt (lookupA d f) (lookupA d g) == some 0))).length
    ∧ (mismatchPreview f g = (mismatchRows f g).take 10
        ∧ (mismatchPreview f g).length ≤ 10
        ∧ ((mismatchRows f g).length ≤ 10 → mismatchPreview f g = mismatchRows f g))
    ∧ (diffDescribe f g = describeStats (diffSeries f g)
        ∧ (diffDescribe f g).count = (diffSeries f g).length
        ∧ (diffSeries f g ≠ [] →
            (diffDescribe f g).mean
              = some ((diffSeries f g).sum / (diffSeries f g).length))
        ∧ (∀ mn, (diffDescribe f g).min = some mn →
            mn ∈ diffSeries f g ∧ ∀ x ∈ diffSeries f g, mn ≤ x)
        ∧ (∀ mx, (diffDescribe f g).max = some mx →
            mx ∈ diffSeries f g ∧ ∀ x ∈ diffSeries f g, x ≤ mx)) := by
  refine ⟨?_, ⟨?_, fun d => mem_unionDates⟩, ?_, ⟨rfl, ?_, ?_⟩, rfl, rfl, ?_, ?_, ?_⟩
  · intro r
    simp [mismatchRows, List.mem_filter, mismatchTest]
  · rw [reconcile, List.map_map]
    show List.map (fun d => d) (unionDates f g) = unionDates f g
    exact List.map_id' _
  · rw [mismatchCount, mismatchRows, reconcile, List.filter_map, List.length_map]
    rfl
  · rw [mismatchPreview, List.length_take]
    exact min_le_left _ _
  · intro hle
    rw [mismatchPreview]
    exact List.take_of_length_le hle
  · intro hne
    have hlen : (diffSeries f g).length ≠ 0 := fun h0 => hne (List.length_eq_zero.1 h0)
    simp [diffDescribe, describeStats, hlen]
  · intro mn hmn
    exact sorted_head_min _ mn hmn
  · intro mx hmx
    exact sorted_getLast_max _ mx hmx

theorem mismatch_classification_witness :
    (3 : ℚ) ∈ diffSeries [(⟨2023, 1, 1⟩, 5)] [(⟨2023, 1, 1⟩, 2)]
    ∧ ∀ x ∈ diffSeries [(⟨2023, 1, 1⟩, 5)] [(⟨2023, 1, 1⟩, 2)], (3 : ℚ) ≤ x :=
  (mismatch_classification [(⟨2023, 1, 1⟩, 5)] [(⟨2023, 1, 1⟩, 2)]).2.2.2.2.2.2.2.1
    3 (by decide)

theorem group_sum_by_hospital_witness :
    ("H1", entityTotal
        [⟨"H1", some ⟨2023, 1, 1⟩, 10⟩, ⟨"H1", some ⟨2023, 1, 1⟩, 20⟩,
          ⟨"H2", some ⟨2023, 1, 1⟩, 5⟩] "H1")
      ∈ facilityTotalsRanked
        [⟨"H1", some ⟨2023, 1, 1⟩, 10⟩, ⟨"H1", some ⟨2023, 1, 1⟩, 20⟩,
          ⟨"H2", some ⟨2023, 1, 1⟩, 5⟩] :=
  (group_sum_by_hospital
      [⟨"H1", some ⟨2023, 1, 1⟩, 10⟩, ⟨"H1", some ⟨2023, 1, 1⟩, 20⟩,
        ⟨"H2", some ⟨2023, 1, 1⟩, 5⟩]).2.2.2 "H1" (by decide)

end Darah
